import Mathlib

/-!
Verification of the PRIMA C driver repository (examples/lincoa/lincoa_example.c,
tests/data.c, tests/stress.c) against its specification.

The repository's visible source contains only driver programs calling the five
PRIMA solver entry points (`prima_uobyqa`, `prima_newuoa`, `prima_bobyqa`,
`prima_lincoa`, `prima_cobyla`); the solver engine itself is not part of the
visible source.  The drivers are embedded directly from the C source; the
engine is modelled from the specification (components §4.1-§4.6, interfaces
§6, error taxonomy §7) where a claim is decided by engine behaviour.

Doubles are embedded as rationals (`ℚ`); the IEEE value NaN, which the drivers
produce deliberately (`*f = NAN` in tests/data.c) and which the spec requires
the engine to treat as a valid-but-catastrophic objective value, is embedded
by the dedicated type `RVal` below.
-/

set_option autoImplicit false

namespace Prima

/-- An objective (or constraint) value as the C drivers see a `double`:
either a finite numeric value or the non-finite value NaN produced by
`*f = NAN` in tests/data.c. -/
inductive RVal where
  | num (v : ℚ)
  | nan
deriving DecidableEq

/-- Return codes of the engine, modelled from the spec (§6, §7): ordinary
convergence by small trust-region radius, evaluation-budget exhaustion, and
invalid-input rejection.  The spec's further codes (target reached, NaN model
failure, allocation failure) are unreachable in the model and omitted. -/
inductive RC where
  | SMALL_TR_RADIUS
  | MAXFUN_REACHED
  | INVALID_INPUT
deriving DecidableEq

/-- The five solver variants, as a constraint-capability descriptor
(spec §9: one engine parameterized by a descriptor rather than five
duplicated state machines). -/
inductive Variant where
  | uobyqa
  | newuoa
  | bobyqa
  | lincoa
  | cobyla
deriving DecidableEq

/-- Whether the variant enforces the bound constraints `xl ≤ x ≤ xu`. -/
def hasBounds : Variant → Bool
  | .uobyqa => false
  | .newuoa => false
  | _ => true

/-- Whether the variant enforces linear inequality constraints `Aineq x ≤ bineq`. -/
def hasLinear : Variant → Bool
  | .lincoa => true
  | .cobyla => true
  | _ => false

/-- Whether the variant evaluates nonlinear constraints through the callback. -/
def hasNonlinear : Variant → Bool
  | .cobyla => true
  | _ => false

end Prima

/-! ### tests/data.c, embedded from the source

`fun` writes `*f = 5*(x1-3)*(x1-3)+7*(x2-2)*(x2-2)+0.1*(x1+x2)-10` and then
overwrites `*f = NAN` when the `data` pointer differs from the global
`data_ref`.  `fun_con` does the same and additionally writes
`constr[0] = x1*x1 + x2*x2 - 13` (before the data check, hence always).
Pointers are embedded as natural-number addresses.  The `static int count`
and the `debug` printing affect only standard output, not the values
written through `f` and `constr`. -/

namespace DataC

open Prima

/-- The objective value both callbacks of tests/data.c compute from `x`. -/
def objFormula (x1 x2 : ℚ) : ℚ :=
  5*(x1-3)*(x1-3) + 7*(x2-2)*(x2-2) + (1/10)*(x1+x2) - 10

/-- Embedding of `fun` from tests/data.c: the value left in `*f`. -/
def data_fun (x1 x2 : ℚ) (data data_ref : ℕ) : RVal :=
  let f := RVal.num (objFormula x1 x2)
  if data ≠ data_ref then RVal.nan else f

/-- Embedding of `fun_con` from tests/data.c: the pair (value left in `*f`,
value left in `constr[0]`). -/
def data_fun_con (x1 x2 : ℚ) (data data_ref : ℕ) : RVal × ℚ :=
  let f := RVal.num (objFormula x1 x2)
  let constr0 := x1*x1 + x2*x2 - 13
  (if data ≠ data_ref then RVal.nan else f, constr0)

end DataC

/-! ### examples/lincoa/lincoa_example.c, embedded from the source -/

namespace LincoaExample

/-- Embedding of the `return` expression of `main` in lincoa_example.c:
`return (fabs(x[0]-3)>2e-2 || fabs(x[1]-2)>2e-2);`.  The variables `f` and
`rc` are in scope in `main` but do not occur in the expression; they are kept
as arguments to record that the exit status reads only `x`. -/
def exitStatus (x : ℚ × ℚ) (f : ℚ) (rc : ℤ) : ℕ :=
  if 2/100 < |x.1 - 3| ∨ 2/100 < |x.2 - 2| then 1 else 0

/-- The objective of `fun` in lincoa_example.c (textually the same formula as
in tests/data.c, with the `data` argument unused). -/
def obj (x : ℚ × ℚ) : ℚ :=
  5*(x.1-3)*(x.1-3) + 7*(x.2-2)*(x.2-2) + (1/10)*(x.1+x.2) - 10

/-- The feasible set of lincoa_example.c: linear constraints
`x1≤4, x2≤3, x1+x2≤10` (rows of `Aineq`/`bineq`) and bounds
`xl = (-6,-6)`, `xu = (6,6)`. -/
def feasible (x : ℚ × ℚ) : Prop :=
  x.1 ≤ 4 ∧ x.2 ≤ 3 ∧ x.1 + x.2 ≤ 10 ∧
  -6 ≤ x.1 ∧ x.1 ≤ 6 ∧ -6 ≤ x.2 ∧ x.2 ≤ 6

instance feasibleDecidable (x : ℚ × ℚ) : Decidable (feasible x) := by
  unfold feasible
  infer_instance

/-- Modelled from the spec: the LINCOA engine (absent from the visible
source) minimizes the objective over the polytope (§1, §4.4-§4.6, §8
"Feasibility"); its idealized returned point for the lincoa_example.c
problem is the exact minimizer of `obj` over `feasible`, namely the
stationary point `(3 - 1/100, 2 - 1/140)` of the strictly convex
objective, which lies inside the polytope. -/
def lincoaReturnedPoint : ℚ × ℚ := (299/100, 279/140)

end LincoaExample

/-! ### tests/stress.c, embedded from the source -/

namespace StressC

/-- The global `const int m_nlcon = 200` of tests/stress.c. -/
def m_nlcon : ℕ := 200

/-- The global `const double alpha = 4.0` of tests/stress.c. -/
def alpha : ℚ := 4

/-- The Rosenbrock objective computed by both `fun` and `fun_con` of
tests/stress.c: the loop `for (i = 0; i < n-1; ++i)` accumulating
`(x[i]-1)^2 + alpha*(x[i+1]-x[i]*x[i])^2` into `*f` starting from `0.0`. -/
def rosenbrock (n : ℕ) (x : ℕ → ℚ) : ℚ :=
  (List.range (n - 1)).foldl
    (fun acc i =>
      acc + (x i - 1) * (x i - 1) + alpha * (x (i+1) - x i * x i) * (x (i+1) - x i * x i))
    0

/-- The constraint-writing loop of `fun_con` in tests/stress.c, unrolled from
the top index: `conLoop x constr k` performs the writes
`constr[i] = x[i+1] - x[i]*x[i]` for `i = 0, ..., k-1` (a `List.set` at an
index beyond the list leaves the list unchanged, matching that the driver
allocates `constr` large enough for every index the loop visits). -/
def conLoop (x : ℕ → ℚ) (constr : List ℚ) : ℕ → List ℚ
  | 0 => constr
  | k + 1 => (conLoop x constr k).set k (x (k+1) - x k * x k)

/-- Embedding of `fun_con` from tests/stress.c: returns the value left in
`*f` and the final contents of the array `constr`, whose entries at indices
`0 ≤ i < MIN(m_nlcon, n-1)` are written by the loop and whose other entries
keep their previous contents. -/
def stress_fun_con (n : ℕ) (x : ℕ → ℚ) (constr : List ℚ) : ℚ × List ℚ :=
  (rosenbrock n x, conLoop x constr (min m_nlcon (n - 1)))

end StressC

/-! ### The solver engine, modelled from the specification

The engine behind the five entry points is not part of the visible source;
every definition in this section is modelled from the specification's
component contracts.  Points are `List ℚ`; a user callback takes the point
and the opaque user context and returns the objective value together with
the nonlinear-constraint values (ignored by the variants without nonlinear
constraints, matching §6's two callback signatures). -/

namespace Prima

/-- Modelled from the spec (§6 Configuration): the recognized options of
`prima_options` that bear on solver semantics — `rhobeg`, `rhoend`,
`maxfun`, the opaque user context `data`, the linear-inequality data
`m_ineq`/`Aineq`/`bineq`, and `m_nlcon`.  `iprint` is reporting-only (§6)
and omitted.  `Ctx` is the type of the opaque caller-owned context. -/
structure prima_options (Ctx : Type) where
  rhobeg : ℚ
  rhoend : ℚ
  maxfun : ℕ
  data : Ctx
  m_ineq : ℕ
  Aineq : List (List ℚ)
  bineq : List ℚ
  m_nlcon : ℕ

/-- Dot product of a constraint row with a point (truncating zip, as the
row length is validated to equal `n`). -/
def dot (a x : List ℚ) : ℚ :=
  (List.zipWith (fun u v => u * v) a x).sum

/-- Modelled from the spec (§4.2(b)): the signed bound-violation amounts at a
point, `xl i - x i` and `x i - xu i` for each coordinate. -/
def boundViolations (xl xu x : List ℚ) : List ℚ :=
  List.zipWith (fun lb p => lb - p) xl x ++ List.zipWith (fun p ub => p - ub) x xu

/-- Modelled from the spec (§4.2(b)): the signed linear-inequality violation
amounts `(Aineq x) i - bineq i`. -/
def linViolations (A : List (List ℚ)) (b : List ℚ) (x : List ℚ) : List ℚ :=
  List.zipWith (fun row bi => dot row x - bi) A b

/-- Modelled from the spec (§4.2, glossary "cstrv"): the scalar constraint
violation — the maximum over all violated constraints of the signed
violation amount, and `0` if none is violated. -/
def cstrvOf (viols : List ℚ) : ℚ :=
  viols.foldr (fun v acc => max (max v 0) acc) 0

/-- Modelled from the spec (§4.2(a)): projection of a point onto the box
`[xl, xu]`, clipping each coordinate. -/
def clip (xl xu x : List ℚ) : List ℚ :=
  List.zipWith (fun lb p => max lb p) xl (List.zipWith (fun ub p => min ub p) xu x)

/-- Modelled from the spec (§4.2(b),(c), §6): the violation amounts the
variant's constraint model sees at a point — bound, linear, and nonlinear
parts, according to the variant's constraint capability.  Nonlinear
constraints follow the convention `constr i ≤ 0` of the drivers
(tests/data.c: `constr[0] = x1*x1 + x2*x2 - 13; // ||x||^2<=13`), and the
engine reads exactly the declared `m_nlcon` leading entries. -/
def violationsAt {Ctx : Type} (v : Variant) (opts : prima_options Ctx)
    (xl xu x nlc : List ℚ) : List ℚ :=
  (if hasBounds v then boundViolations xl xu x else []) ++
  (if hasLinear v then linViolations opts.Aineq opts.bineq x else []) ++
  (if hasNonlinear v then nlc.take opts.m_nlcon else [])

/-- Modelled from the spec (§4.1, §4.2): whether a candidate with objective
value `f1` and constraint violation `c1` is strictly preferred to the
incumbent `(f2, c2)`.  A non-finite objective makes the trial point strictly
non-preferred (§4.1); otherwise a smaller `cstrv` always wins, and among
equal `cstrv` the lower objective wins (§4.2). -/
def better : RVal → ℚ → RVal → ℚ → Bool
  | RVal.nan, _, _, _ => false
  | RVal.num _, _, RVal.nan, _ => true
  | RVal.num f1, c1, RVal.num f2, c2 =>
      if c1 < c2 then true
      else if c2 < c1 then false
      else decide (f1 < f2)

/-- Modelled from the spec (§4.5, §3 "Result"): the running state of the
Iteration Controller — the evaluation counter, the trace of context values
passed to the user callback (recorded to state the Adapter contract of §4.1
and §5), and the best point record (point, objective value, `cstrv`). -/
structure EngineState (Ctx : Type) where
  nf : ℕ
  calls : List Ctx
  bestX : List ℚ
  bestF : RVal
  bestC : ℚ

/-- Modelled from the spec (§4.1 Evaluation Adapter, §4.2): one evaluation.
Bound constraints are enforced by clipping before anything else is evaluated
(§4.2); the callback is invoked exactly once, receiving the opaque context
`opts.data` unchanged; the counter is incremented unconditionally; the best
record is replaced exactly when the merit comparison strictly prefers the
new point. -/
def evalStep {Ctx : Type} (v : Variant) (cb : List ℚ → Ctx → RVal × List ℚ)
    (opts : prima_options Ctx) (xl xu p : List ℚ) (s : EngineState Ctx) :
    EngineState Ctx :=
  let q := if hasBounds v then clip xl xu p else p
  let r := cb q opts.data
  let c := cstrvOf (violationsAt v opts xl xu q r.2)
  let keep := better r.1 c s.bestF s.bestC
  { nf := s.nf + 1
    calls := s.calls ++ [opts.data]
    bestX := if keep then q else s.bestX
    bestF := if keep then r.1 else s.bestF
    bestC := if keep then c else s.bestC }

/-- Modelled from the spec (§3 InterpolationSet, §4.3): the fixed geometric
initialization pattern around the starting point — the start and coordinate
steps of size `rhobeg` in each direction. -/
def initPattern (n : ℕ) (rhobeg : ℚ) (x0 : List ℚ) : List (List ℚ) :=
  x0 ::
    ((List.range n).map (fun i => x0.mapIdx (fun j xj => if j = i then xj + rhobeg else xj)) ++
     (List.range n).map (fun i => x0.mapIdx (fun j xj => if j = i then xj - rhobeg else xj)))

/-- Modelled from the spec (§4.5 "Initializing"): evaluate the initial
pattern point by point through the Adapter, stopping with a budget flag when
the next required evaluation would exceed `maxfun`. -/
def runInit {Ctx : Type} (v : Variant) (cb : List ℚ → Ctx → RVal × List ℚ)
    (opts : prima_options Ctx) (xl xu : List ℚ) :
    List (List ℚ) → EngineState Ctx → EngineState Ctx × Bool
  | [], s => (s, false)
  | p :: ps, s =>
      if opts.maxfun ≤ s.nf then (s, true)
      else runInit v cb opts xl xu ps (evalStep v cb opts xl xu p s)

/-- Modelled from the spec (§4.5 "Iterating"/"GeometryFixing"): the main
loop.  The trust-region subproblem solver and geometry steps (§4.3, §4.4)
enter only through the abstract proposal function `propose`, which maps the
current controller state to the next trial point; `fuel` abstracts the
finite `rho`-shrinking schedule that ends at `rhoend`, upon which the
controller terminates with the small-radius convergence code.  Before every
evaluation the budget is checked: if the next evaluation would exceed
`maxfun`, the controller stops with the budget-exhausted code (§4.5). -/
def runIter {Ctx : Type} (v : Variant) (cb : List ℚ → Ctx → RVal × List ℚ)
    (propose : EngineState Ctx → List ℚ) (opts : prima_options Ctx)
    (xl xu : List ℚ) : ℕ → EngineState Ctx → EngineState Ctx × RC
  | 0, s => (s, RC.SMALL_TR_RADIUS)
  | fuel + 1, s =>
      if opts.maxfun ≤ s.nf then (s, RC.MAXFUN_REACHED)
      else runIter v cb propose opts xl xu fuel (evalStep v cb opts xl xu (propose s) s)

/-- Modelled from the spec (§4.2 "inconsistent bounds"): the bound vectors
are consistent when `xl i ≤ xu i` for every coordinate. -/
def boundsOk (xl xu : List ℚ) : Bool :=
  (xl.zip xu).all (fun p => decide (p.1 ≤ p.2))

/-- Modelled from the spec (§3 "Problem" invariant, §7(a)): input validation,
performed before any evaluation — `n ≥ 1`, the start vector has length `n`,
and, for the variants with the corresponding capability, bound arrays of
length `n` with consistent bounds and linear-constraint arrays of the
declared sizes. -/
def validInput {Ctx : Type} (v : Variant) (n : ℕ) (x0 xl xu : List ℚ)
    (opts : prima_options Ctx) : Bool :=
  decide (1 ≤ n) && (x0.length == n) &&
  (!(hasBounds v) || ((xl.length == n) && (xu.length == n) && boundsOk xl xu)) &&
  (!(hasLinear v) ||
    ((opts.Aineq.length == opts.m_ineq) && (opts.bineq.length == opts.m_ineq) &&
     opts.Aineq.all (fun row => row.length == n)))

/-- Modelled from the spec (§3 "Result", §6): what an entry point returns —
best point, its objective value and `cstrv`, the evaluation count, the
return code, and (recorded for the Adapter contract) the trace of contexts
passed to the callback. -/
structure SolveResult (Ctx : Type) where
  x : List ℚ
  f : RVal
  cstrv : ℚ
  nf : ℕ
  rc : RC
  calls : List Ctx

/-- Modelled from the spec (§4.6 Result Reporter): package the terminal
controller state and its terminal code into the immutable Result. -/
def report {Ctx : Type} (rc : RC) (s : EngineState Ctx) : SolveResult Ctx :=
  ⟨s.bestX, s.bestF, s.bestC, s.nf, rc, s.calls⟩

/-- Modelled from the spec (§4.5): finish a solve after the initialization
phase: if the budget was exhausted during initialization, report that;
otherwise run the iteration loop and report its terminal code. -/
def primaFinish {Ctx : Type} (v : Variant) (cb : List ℚ → Ctx → RVal × List ℚ)
    (propose : EngineState Ctx → List ℚ) (opts : prima_options Ctx)
    (xl xu : List ℚ) (fuel : ℕ) (p : EngineState Ctx × Bool) : SolveResult Ctx :=
  if p.2 then report RC.MAXFUN_REACHED p.1
  else
    report (runIter v cb propose opts xl xu fuel p.1).2
      (runIter v cb propose opts xl xu fuel p.1).1

/-- Modelled from the spec (§4.5, §4.6, §7): the single engine behind the
five entry points.  Validation happens before any evaluation; on invalid
input the invalid-input code is returned with a zero evaluation count and no
callback invocation (§7(a)).  Otherwise the controller initializes the
sample set from the start record (best initialized to the start point with a
non-finite objective value, so the first finite evaluation replaces it),
iterates, and reports the best record.  The argument `env` stands for the
ambient process state (wall clock, C `rand` state — exercised by
tests/stress.c's seeding) which, per §4.5 ("no hidden global state") and §8
("no hidden randomness in the engine itself"), the engine never consults. -/
def primaRun {Ctx : Type} (v : Variant) (cb : List ℚ → Ctx → RVal × List ℚ)
    (propose : EngineState Ctx → List ℚ) (n : ℕ) (x0 xl xu : List ℚ)
    (opts : prima_options Ctx) (fuel : ℕ) (env : ℕ) : SolveResult Ctx :=
  if validInput v n x0 xl xu opts then
    primaFinish v cb propose opts xl xu fuel
      (runInit v cb opts xl xu (initPattern n opts.rhobeg x0)
        { nf := 0, calls := [], bestX := x0, bestF := RVal.nan, bestC := 0 })
  else report RC.INVALID_INPUT { nf := 0, calls := [], bestX := x0, bestF := RVal.nan, bestC := 0 }

/-- Modelled from the spec (§6, §9): the UOBYQA entry point as a thin
adapter over the single engine.  The C signature takes no bound arrays;
empty ones are passed to the engine, which ignores them for this variant. -/
def prima_uobyqa {Ctx : Type} (cb : List ℚ → Ctx → RVal × List ℚ)
    (propose : EngineState Ctx → List ℚ) (n : ℕ) (x0 : List ℚ)
    (opts : prima_options Ctx) (fuel env : ℕ) : SolveResult Ctx :=
  primaRun Variant.uobyqa cb propose n x0 [] [] opts fuel env

/-- Modelled from the spec (§6, §9): the NEWUOA entry point. -/
def prima_newuoa {Ctx : Type} (cb : List ℚ → Ctx → RVal × List ℚ)
    (propose : EngineState Ctx → List ℚ) (n : ℕ) (x0 : List ℚ)
    (opts : prima_options Ctx) (fuel env : ℕ) : SolveResult Ctx :=
  primaRun Variant.newuoa cb propose n x0 [] [] opts fuel env

/-- Modelled from the spec (§6, §9): the BOBYQA entry point. -/
def prima_bobyqa {Ctx : Type} (cb : List ℚ → Ctx → RVal × List ℚ)
    (propose : EngineState Ctx → List ℚ) (n : ℕ) (x0 xl xu : List ℚ)
    (opts : prima_options Ctx) (fuel env : ℕ) : SolveResult Ctx :=
  primaRun Variant.bobyqa cb propose n x0 xl xu opts fuel env

/-- Modelled from the spec (§6, §9): the LINCOA entry point. -/
def prima_lincoa {Ctx : Type} (cb : List ℚ → Ctx → RVal × List ℚ)
    (propose : EngineState Ctx → List ℚ) (n : ℕ) (x0 xl xu : List ℚ)
    (opts : prima_options Ctx) (fuel env : ℕ) : SolveResult Ctx :=
  primaRun Variant.lincoa cb propose n x0 xl xu opts fuel env

/-- Modelled from the spec (§6, §9): the COBYLA entry point. -/
def prima_cobyla {Ctx : Type} (cb : List ℚ → Ctx → RVal × List ℚ)
    (propose : EngineState Ctx → List ℚ) (n : ℕ) (x0 xl xu : List ℚ)
    (opts : prima_options Ctx) (fuel env : ℕ) : SolveResult Ctx :=
  primaRun Variant.cobyla cb propose n x0 xl xu opts fuel env

/-- A result was rejected by input validation: the invalid-input code is
returned, no evaluation was consumed, and the callback was never invoked. -/
def rejected {Ctx : Type} (r : SolveResult Ctx) : Prop :=
  r.rc = RC.INVALID_INPUT ∧ r.nf = 0 ∧ r.calls = []

/-- A concrete callback used to instantiate universally quantified
statements: it returns the non-finite value on every input and no
nonlinear-constraint values. -/
def cbW : List ℚ → ℕ → RVal × List ℚ := fun _ _ => (RVal.nan, [])

/-- A concrete proposal function used to instantiate universally quantified
statements: it proposes the incumbent best point. -/
def proposeW : EngineState ℕ → List ℚ := fun s => s.bestX

/-- A concrete options record used to instantiate universally quantified
statements. -/
def optsW : prima_options ℕ :=
  { rhobeg := 1, rhoend := 1/1000, maxfun := 2, data := 7,
    m_ineq := 0, Aineq := [], bineq := [], m_nlcon := 0 }

end Prima

/-! ### Theorems: driver code (tests/data.c, lincoa_example.c, tests/stress.c) -/

namespace Prima

/-- C8: the callback `fun` in tests/data.c is a pure function of `x`: with
matching context it writes `*f = 5(x1-3)^2+7(x2-2)^2+0.1(x1+x2)-10`, with a
mismatched context it writes NaN; and `fun_con` behaves the same on `f`
while writing `constr[0] = x1^2+x2^2-13` on every input. -/
theorem data_fun_spec (x1 x2 : ℚ) (d r : ℕ) :
    (d = r → DataC.data_fun x1 x2 d r =
      RVal.num (5*(x1-3)*(x1-3) + 7*(x2-2)*(x2-2) + (1/10)*(x1+x2) - 10)) ∧
    (d ≠ r → DataC.data_fun x1 x2 d r = RVal.nan) ∧
    ((DataC.data_fun_con x1 x2 d r).2 = x1*x1 + x2*x2 - 13) ∧
    (d = r → (DataC.data_fun_con x1 x2 d r).1 =
      RVal.num (5*(x1-3)*(x1-3) + 7*(x2-2)*(x2-2) + (1/10)*(x1+x2) - 10)) ∧
    (d ≠ r → (DataC.data_fun_con x1 x2 d r).1 = RVal.nan) := by
  refine ⟨?_, ?_, rfl, ?_, ?_⟩
  · intro h
    simp [DataC.data_fun, DataC.objFormula, h]
  · intro h
    simp [DataC.data_fun, h]
  · intro h
    simp [DataC.data_fun_con, DataC.objFormula, h]
  · intro h
    simp [DataC.data_fun_con, h]

/-- Witness for C8: with a mismatched context pointer, `fun` writes NaN. -/
theorem data_fun_spec_witness : DataC.data_fun 0 0 1 2 = RVal.nan :=
  (data_fun_spec 0 0 1 2).2.1 (by decide)

/-- C9: the exit status of lincoa_example.c is 0 exactly when the returned
point is within `2e-2` of `(3, 2)` in each coordinate, and it depends only
on the point, not on the objective value or the return code. -/
theorem lincoa_example_exit_spec (x : ℚ × ℚ) (f : ℚ) (rc : ℤ) :
    (LincoaExample.exitStatus x f rc = 0 ↔
      |x.1 - 3| ≤ 2/100 ∧ |x.2 - 2| ≤ 2/100) ∧
    (∀ (f2 : ℚ) (rc2 : ℤ), LincoaExample.exitStatus x f rc = LincoaExample.exitStatus x f2 rc2) := by
  constructor
  · unfold LincoaExample.exitStatus
    split_ifs with h
    · constructor
      · intro h0
        exact h0.elim
      · intro hc
        rcases h with h | h
        · exact absurd hc.1 (not_le.mpr h)
        · exact absurd hc.2 (not_le.mpr h)
    · push_neg at h
      exact iff_of_true rfl ⟨h.1, h.2⟩
  · intro f2 rc2
    rfl

/-- Witness for C9 at a concrete point: a point farther than `2e-2` from
`(3, 2)` yields a nonzero exit status. -/
theorem lincoa_example_exit_spec_witness :
    LincoaExample.exitStatus (0, 0) 5 0 = 0 ↔ |(0 : ℚ) - 3| ≤ 2/100 ∧ |(0 : ℚ) - 2| ≤ 2/100 :=
  (lincoa_example_exit_spec (0, 0) 5 0).1

/-- Length preservation of the constraint-writing loop of tests/stress.c. -/
theorem conLoop_length (x : ℕ → ℚ) (constr : List ℚ) :
    ∀ k, (StressC.conLoop x constr k).length = constr.length := by
  intro k
  induction k with
  | zero => rfl
  | succ k ih => simp [StressC.conLoop, ih]

/-- Pointwise description of the constraint-writing loop of tests/stress.c:
indices below the loop bound hold the written value, all others keep their
previous contents. -/
theorem conLoop_getElem (x : ℕ → ℚ) (constr : List ℚ) :
    ∀ k i, (StressC.conLoop x constr k)[i]? =
      if i < k ∧ i < constr.length then some (x (i+1) - x i * x i) else constr[i]? := by
  intro k
  induction k with
  | zero =>
      intro i
      simp [StressC.conLoop]
  | succ k ih =>
      intro i
      show ((StressC.conLoop x constr k).set k (x (k+1) - x k * x k))[i]? = _
      rw [List.getElem?_set]
      rcases eq_or_ne k i with hk | hk
      · subst hk
        rw [conLoop_length]
        by_cases hlen : k < constr.length
        · simp [hlen, Nat.lt_succ_self]
        · rw [if_pos rfl, if_neg hlen, if_neg (by omega)]
          exact (List.getElem?_eq_none (by omega)).symm
      · rw [if_neg hk, ih i]
        by_cases h1 : i < k ∧ i < constr.length
        · rw [if_pos h1, if_pos ⟨by omega, h1.2⟩]
        · rw [if_neg h1, if_neg (by omega)]

/-- C10: `fun_con` in tests/stress.c writes exactly the first
`min(m_nlcon, n-1)` entries of `constr` (entry `i` becomes
`x[i+1] - x[i]*x[i]`) and leaves every other entry unchanged; in
particular, when `n ≤ m_nlcon`, entries from index `n-1` on are never
written. -/
theorem stress_fun_con_frame (n : ℕ) (x : ℕ → ℚ) (constr : List ℚ) :
    ((StressC.stress_fun_con n x constr).2.length = constr.length) ∧
    (∀ i, i < min StressC.m_nlcon (n - 1) → i < constr.length →
      (StressC.stress_fun_con n x constr).2[i]? = some (x (i+1) - x i * x i)) ∧
    (∀ i, min StressC.m_nlcon (n - 1) ≤ i →
      (StressC.stress_fun_con n x constr).2[i]? = constr[i]?) ∧
    (n ≤ StressC.m_nlcon → ∀ i, n - 1 ≤ i →
      (StressC.stress_fun_con n x constr).2[i]? = constr[i]?) := by
  refine ⟨conLoop_length x constr _, ?_, ?_, ?_⟩
  · intro i h1 h2
    show (StressC.conLoop x constr (min StressC.m_nlcon (n - 1)))[i]? = _
    rw [conLoop_getElem, if_pos ⟨h1, h2⟩]
  · intro i h1
    show (StressC.conLoop x constr (min StressC.m_nlcon (n - 1)))[i]? = _
    rw [conLoop_getElem, if_neg (by omega)]
  · intro hn i hi
    show (StressC.conLoop x constr (min StressC.m_nlcon (n - 1)))[i]? = _
    rw [conLoop_getElem, if_neg (by omega)]

/-- Witness for C10: with `n = 2` the loop bound is `min(200, 1) = 1`, so
entry 2 of a length-3 array is untouched. -/
theorem stress_fun_con_frame_witness :
    (StressC.stress_fun_con 2 (fun i => (i : ℚ)) [5, 6, 7]).2[2]? = ([5, 6, 7] : List ℚ)[2]? :=
  (stress_fun_con_frame 2 (fun i => (i : ℚ)) [5, 6, 7]).2.2.1 2 (by decide)

/-- The scalar violation measure is never negative. -/
theorem cstrvOf_nonneg (l : List ℚ) : 0 ≤ cstrvOf l := by
  induction l with
  | nil => exact le_refl 0
  | cons v t ih => exact le_trans ih (le_max_right _ _)

/-- The scalar violation measure is zero when no constraint is violated. -/
theorem cstrvOf_eq_zero (l : List ℚ) (h : ∀ v ∈ l, v ≤ 0) : cstrvOf l = 0 := by
  induction l with
  | nil => rfl
  | cons v t ih =>
      have hv : v ≤ 0 := h v (List.mem_cons_self v t)
      have ht : cstrvOf t = 0 := ih (fun w hw => h w (List.mem_cons_of_mem v hw))
      show max (max v 0) (cstrvOf t) = 0
      rw [ht, max_eq_right hv, max_self]

/-- A clipped point never violates a lower bound. -/
theorem clip_lower_nonpos (xl : List ℚ) : ∀ (xu x : List ℚ),
    ∀ w ∈ List.zipWith (fun lb p => lb - p) xl (clip xl xu x), w ≤ 0 := by
  induction xl with
  | nil => intro xu x w hw; simp [clip] at hw
  | cons a as ih =>
      intro xu x w hw
      cases xu with
      | nil => simp [clip] at hw
      | cons b bs =>
        cases x with
        | nil => simp [clip] at hw
        | cons c cs =>
          simp only [clip, List.zipWith_cons_cons, List.mem_cons] at hw
          rcases hw with rfl | hw
          · exact sub_nonpos.mpr (le_max_left _ _)
          · exact ih bs cs w (by simpa [clip] using hw)

/-- With consistent bounds, a clipped point never violates an upper bound. -/
theorem clip_upper_nonpos (xl : List ℚ) : ∀ (xu x : List ℚ), boundsOk xl xu = true →
    ∀ w ∈ List.zipWith (fun p ub => p - ub) (clip xl xu x) xu, w ≤ 0 := by
  induction xl with
  | nil => intro xu x _ w hw; simp [clip] at hw
  | cons a as ih =>
      intro xu x hok w hw
      cases xu with
      | nil => simp [clip] at hw
      | cons b bs =>
        cases x with
        | nil => simp [clip] at hw
        | cons c cs =>
          simp only [boundsOk, List.zip_cons_cons, List.all_cons, Bool.and_eq_true,
            decide_eq_true_eq] at hok
          simp only [clip, List.zipWith_cons_cons, List.mem_cons] at hw
          rcases hw with rfl | hw
          · exact sub_nonpos.mpr (max_le hok.1 (min_le_left b c))
          · exact ih bs cs (by simp [boundsOk, hok.2]) w (by simpa [clip] using hw)

/-- With consistent bounds, clipping yields a point with no bound
violation. -/
theorem boundViol_clip_nonpos (xl xu x : List ℚ) (hok : boundsOk xl xu = true) :
    ∀ w ∈ boundViolations xl xu (clip xl xu x), w ≤ 0 := by
  intro w hw
  rcases List.mem_append.mp hw with h | h
  · exact clip_lower_nonpos xl xu x w h
  · exact clip_upper_nonpos xl xu x hok w h

/-- A trial point with a non-finite objective value is never strictly
preferred by the merit comparison. -/
theorem better_nan_false (c : ℚ) (f2 : RVal) (c2 : ℚ) :
    better RVal.nan c f2 c2 = false := rfl

/-- For a variant whose remaining constraint capabilities are inactive
(consistent bounds, empty linear system, no declared nonlinear
constraints), the violation measure at any clipped evaluation point is
zero. -/
theorem violations_cstrv_zero {Ctx : Type} (v : Variant) (opts : prima_options Ctx)
    (xl xu p nlc : List ℚ)
    (hb : hasBounds v = true → boundsOk xl xu = true)
    (hA : hasLinear v = true → opts.Aineq = [])
    (hn : hasNonlinear v = true → opts.m_nlcon = 0) :
    cstrvOf (violationsAt v opts xl xu (if hasBounds v then clip xl xu p else p) nlc) = 0 := by
  apply cstrvOf_eq_zero
  intro w hw
  unfold violationsAt at hw
  rcases List.mem_append.mp hw with hw12 | hw3
  · rcases List.mem_append.mp hw12 with hw1 | hw2
    · rcases hbv : hasBounds v with _ | _
      · rw [hbv] at hw1; simp at hw1
      · rw [hbv] at hw1
        exact boundViol_clip_nonpos xl xu p (hb hbv) w (by simpa using hw1)
    · rcases hlv : hasLinear v with _ | _
      · rw [hlv] at hw2; simp at hw2
      · rw [hlv, hA hlv] at hw2
        simp [linViolations] at hw2
  · rcases hnv : hasNonlinear v with _ | _
    · rw [hnv] at hw3; simp at hw3
    · rw [hnv, hn hnv] at hw3
      simp at hw3

/-- One evaluation keeps the best-record violation nonnegative. -/
theorem evalStep_bestC_nonneg {Ctx : Type} {v : Variant}
    {cb : List ℚ → Ctx → RVal × List ℚ} {opts : prima_options Ctx} {xl xu : List ℚ}
    (p : List ℚ) (s : EngineState Ctx) (hs : 0 ≤ s.bestC) :
    0 ≤ (evalStep v cb opts xl xu p s).bestC := by
  simp only [evalStep]
  split <;> split
  · exact cstrvOf_nonneg _
  · exact hs
  · exact cstrvOf_nonneg _
  · exact hs

/-- One evaluation keeps the best-record violation at zero when the
variant's constraint capabilities are inactive. -/
theorem evalStep_bestC_zero {Ctx : Type} {v : Variant}
    {cb : List ℚ → Ctx → RVal × List ℚ} {opts : prima_options Ctx} {xl xu : List ℚ}
    (hb : hasBounds v = true → boundsOk xl xu = true)
    (hA : hasLinear v = true → opts.Aineq = [])
    (hn : hasNonlinear v = true → opts.m_nlcon = 0)
    (p : List ℚ) (s : EngineState Ctx) (hs : s.bestC = 0) :
    (evalStep v cb opts xl xu p s).bestC = 0 := by
  simp only [evalStep]
  rw [violations_cstrv_zero v opts xl xu p _ hb hA hn, hs]
  exact ite_self 0

/-- One evaluation passes exactly the configured context to the callback. -/
theorem evalStep_calls_pres {Ctx : Type} {v : Variant}
    {cb : List ℚ → Ctx → RVal × List ℚ} {opts : prima_options Ctx} {xl xu : List ℚ}
    (p : List ℚ) (s : EngineState Ctx) (hs : ∀ c ∈ s.calls, c = opts.data) :
    ∀ c ∈ (evalStep v cb opts xl xu p s).calls, c = opts.data := by
  intro c hc
  simp only [evalStep] at hc
  rcases List.mem_append.mp hc with h | h
  · exact hs c h
  · exact List.mem_singleton.mp h

/-- Any property preserved by single evaluations is preserved by the
initialization phase. -/
theorem runInit_inv {Ctx : Type} {v : Variant} {cb : List ℚ → Ctx → RVal × List ℚ}
    {opts : prima_options Ctx} {xl xu : List ℚ} (P : EngineState Ctx → Prop)
    (hstep : ∀ p s, P s → P (evalStep v cb opts xl xu p s)) :
    ∀ (ps : List (List ℚ)) (s : EngineState Ctx),
      P s → P (runInit v cb opts xl xu ps s).1 := by
  intro ps
  induction ps with
  | nil => intro s hs; exact hs
  | cons p ps ih =>
      intro s hs
      simp only [runInit]
      split
      · exact hs
      · exact ih _ (hstep p s hs)

/-- Any property preserved by single evaluations is preserved by the
iteration loop. -/
theorem runIter_inv {Ctx : Type} {v : Variant} {cb : List ℚ → Ctx → RVal × List ℚ}
    {propose : EngineState Ctx → List ℚ} {opts : prima_options Ctx} {xl xu : List ℚ}
    (P : EngineState Ctx → Prop)
    (hstep : ∀ p s, P s → P (evalStep v cb opts xl xu p s)) :
    ∀ (fuel : ℕ) (s : EngineState Ctx),
      P s → P (runIter v cb propose opts xl xu fuel s).1 := by
  intro fuel
  induction fuel with
  | zero => intro s hs; exact hs
  | succ k ih =>
      intro s hs
      simp only [runIter]
      split
      · exact hs
      · exact ih _ (hstep _ s hs)

/-- The initialization phase never pushes the counter past the budget. -/
theorem runInit_nf_le {Ctx : Type} {v : Variant} {cb : List ℚ → Ctx → RVal × List ℚ}
    {opts : prima_options Ctx} {xl xu : List ℚ} :
    ∀ (ps : List (List ℚ)) (s : EngineState Ctx), s.nf ≤ opts.maxfun →
      ((runInit v cb opts xl xu ps s).1).nf ≤ opts.maxfun := by
  intro ps
  induction ps with
  | nil => intro s hs; exact hs
  | cons p ps ih =>
      intro s hs
      simp only [runInit]
      split
      · exact hs
      · rename_i hbudget
        exact ih _ (Nat.succ_le_of_lt (Nat.lt_of_not_le hbudget))

/-- The iteration loop never pushes the counter past the budget. -/
theorem runIter_nf_le {Ctx : Type} {v : Variant} {cb : List ℚ → Ctx → RVal × List ℚ}
    {propose : EngineState Ctx → List ℚ} {opts : prima_options Ctx} {xl xu : List ℚ} :
    ∀ (fuel : ℕ) (s : EngineState Ctx), s.nf ≤ opts.maxfun →
      ((runIter v cb propose opts xl xu fuel s).1).nf ≤ opts.maxfun := by
  intro fuel
  induction fuel with
  | zero => intro s hs; exact hs
  | succ k ih =>
      intro s hs
      simp only [runIter]
      split
      · exact hs
      · rename_i hbudget
        exact ih _ (Nat.succ_le_of_lt (Nat.lt_of_not_le hbudget))

/-- The iteration loop terminates with one of the two ordinary codes. -/
theorem runIter_rc {Ctx : Type} {v : Variant} {cb : List ℚ → Ctx → RVal × List ℚ}
    {propose : EngineState Ctx → List ℚ} {opts : prima_options Ctx} {xl xu : List ℚ} :
    ∀ (fuel : ℕ) (s : EngineState Ctx),
      (runIter v cb propose opts xl xu fuel s).2 = RC.SMALL_TR_RADIUS ∨
      (runIter v cb propose opts xl xu fuel s).2 = RC.MAXFUN_REACHED := by
  intro fuel
  induction fuel with
  | zero => intro s; exact Or.inl rfl
  | succ k ih =>
      intro s
      simp only [runIter]
      split
      · exact Or.inr rfl
      · exact ih _

/-- Validation rejects a zero dimension. -/
theorem validInput_n_zero {Ctx : Type} (v : Variant) (x0 xl xu : List ℚ)
    (opts : prima_options Ctx) : ¬ validInput v 0 x0 xl xu opts = true := by
  intro h
  simp only [validInput, Bool.and_eq_true, decide_eq_true_eq, beq_iff_eq] at h
  have h1 : (1 : ℕ) ≤ 0 := by tauto
  exact absurd h1 (by omega)

/-- Validation rejects mismatched bound-array lengths for a variant with
bound constraints. -/
theorem validInput_bounds_mismatch {Ctx : Type} (v : Variant) (n : ℕ)
    (x0 xl xu : List ℚ) (opts : prima_options Ctx) (hbv : hasBounds v = true)
    (h : xl.length ≠ n ∨ xu.length ≠ n) : ¬ validInput v n x0 xl xu opts = true := by
  intro hv
  simp only [validInput, hbv, Bool.not_true, Bool.false_or, Bool.and_eq_true, beq_iff_eq,
    decide_eq_true_eq] at hv
  rcases h with h | h
  · have hx : xl.length = n := by tauto
    exact h hx
  · have hx : xu.length = n := by tauto
    exact h hx

/-- Validated input has consistent bounds when the variant enforces them. -/
theorem validInput_boundsOk {Ctx : Type} {v : Variant} {n : ℕ} {x0 xl xu : List ℚ}
    {opts : prima_options Ctx} (hv : validInput v n x0 xl xu opts = true)
    (hbv : hasBounds v = true) : boundsOk xl xu = true := by
  simp only [validInput, hbv, Bool.not_true, Bool.false_or, Bool.and_eq_true, beq_iff_eq,
    decide_eq_true_eq] at hv
  tauto

/-- Validated input with a declared zero linear-constraint count has an
empty constraint matrix. -/
theorem validInput_Aineq_nil {Ctx : Type} {v : Variant} {n : ℕ} {x0 xl xu : List ℚ}
    {opts : prima_options Ctx} (hv : validInput v n x0 xl xu opts = true)
    (hlv : hasLinear v = true) (hm : opts.m_ineq = 0) : opts.Aineq = [] := by
  simp only [validInput, hlv, Bool.not_true, Bool.false_or, Bool.and_eq_true, beq_iff_eq,
    decide_eq_true_eq, List.all_eq_true] at hv
  have hlen : opts.Aineq.length = opts.m_ineq := by tauto
  rw [hm] at hlen
  exact List.length_eq_zero.mp hlen

/-- A rejected input yields the invalid-input result: invalid-input code,
zero evaluations, no callback call. -/
theorem primaRun_rejected_of {Ctx : Type} (v : Variant)
    (cb : List ℚ → Ctx → RVal × List ℚ) (propose : EngineState Ctx → List ℚ)
    (n : ℕ) (x0 xl xu : List ℚ) (opts : prima_options Ctx) (fuel env : ℕ)
    (hv : ¬ validInput v n x0 xl xu opts = true) :
    rejected (primaRun v cb propose n x0 xl xu opts fuel env) := by
  unfold primaRun
  rw [if_neg hv]
  exact ⟨rfl, rfl, rfl⟩

/-- The engine's reported evaluation count never exceeds the budget. -/
theorem primaRun_nf_le {Ctx : Type} (v : Variant) (cb : List ℚ → Ctx → RVal × List ℚ)
    (propose : EngineState Ctx → List ℚ) (n : ℕ) (x0 xl xu : List ℚ)
    (opts : prima_options Ctx) (fuel env : ℕ) :
    (primaRun v cb propose n x0 xl xu opts fuel env).nf ≤ opts.maxfun := by
  unfold primaRun
  split
  · unfold primaFinish
    split
    · exact runInit_nf_le _ _ (Nat.zero_le _)
    · exact runIter_nf_le _ _ (runInit_nf_le _ _ (Nat.zero_le _))
  · exact Nat.zero_le _

/-- Every context value the engine passes to the callback is the configured
one. -/
theorem primaRun_calls {Ctx : Type} (v : Variant) (cb : List ℚ → Ctx → RVal × List ℚ)
    (propose : EngineState Ctx → List ℚ) (n : ℕ) (x0 xl xu : List ℚ)
    (opts : prima_options Ctx) (fuel env : ℕ) :
    ∀ c ∈ (primaRun v cb propose n x0 xl xu opts fuel env).calls, c = opts.data := by
  unfold primaRun
  split
  · unfold primaFinish
    split
    · exact runInit_inv (fun s => ∀ c ∈ s.calls, c = opts.data) evalStep_calls_pres _ _
        (fun c hc => absurd hc (List.not_mem_nil c))
    · exact runIter_inv (fun s => ∀ c ∈ s.calls, c = opts.data) evalStep_calls_pres _ _
        (runInit_inv (fun s => ∀ c ∈ s.calls, c = opts.data) evalStep_calls_pres _ _
          (fun c hc => absurd hc (List.not_mem_nil c)))
  · intro c hc
    exact absurd hc (List.not_mem_nil c)

/-- The reported constraint violation is never negative. -/
theorem primaRun_cstrv_nonneg {Ctx : Type} (v : Variant)
    (cb : List ℚ → Ctx → RVal × List ℚ) (propose : EngineState Ctx → List ℚ)
    (n : ℕ) (x0 xl xu : List ℚ) (opts : prima_options Ctx) (fuel env : ℕ) :
    0 ≤ (primaRun v cb propose n x0 xl xu opts fuel env).cstrv := by
  unfold primaRun
  split
  · unfold primaFinish
    split
    · exact runInit_inv (fun s => 0 ≤ s.bestC) evalStep_bestC_nonneg _ _ le_rfl
    · exact runIter_inv (fun s => 0 ≤ s.bestC) evalStep_bestC_nonneg _ _
        (runInit_inv (fun s => 0 ≤ s.bestC) evalStep_bestC_nonneg _ _ le_rfl)
  · exact le_rfl

/-- The reported constraint violation is exactly zero whenever the
variant's linear and nonlinear capabilities are inactive. -/
theorem primaRun_cstrv_zero {Ctx : Type} (v : Variant)
    (cb : List ℚ → Ctx → RVal × List ℚ) (propose : EngineState Ctx → List ℚ)
    (n : ℕ) (x0 xl xu : List ℚ) (opts : prima_options Ctx) (fuel env : ℕ)
    (hl : hasLinear v = true → opts.m_ineq = 0)
    (hn : hasNonlinear v = true → opts.m_nlcon = 0) :
    (primaRun v cb propose n x0 xl xu opts fuel env).cstrv = 0 := by
  by_cases hv : validInput v n x0 xl xu opts = true
  · have hb : hasBounds v = true → boundsOk xl xu = true :=
      fun h => validInput_boundsOk hv h
    have hA : hasLinear v = true → opts.Aineq = [] :=
      fun h => validInput_Aineq_nil hv h (hl h)
    unfold primaRun
    rw [if_pos hv]
    unfold primaFinish
    split
    · exact runInit_inv (fun s => s.bestC = 0) (evalStep_bestC_zero hb hA hn) _ _ rfl
    · exact runIter_inv (fun s => s.bestC = 0) (evalStep_bestC_zero hb hA hn) _ _
        (runInit_inv (fun s => s.bestC = 0) (evalStep_bestC_zero hb hA hn) _ _ rfl)
  · unfold primaRun
    rw [if_neg hv]
    rfl

/-- C1 (spec-modelled): for every solver entry point and every input, the
evaluation count reported when the solver returns is at most the configured
`maxfun`. -/
theorem prima_nf_le_maxfun {Ctx : Type} (cb : List ℚ → Ctx → RVal × List ℚ)
    (propose : EngineState Ctx → List ℚ) (n : ℕ) (x0 xl xu : List ℚ)
    (opts : prima_options Ctx) (fuel env : ℕ) :
    (prima_uobyqa cb propose n x0 opts fuel env).nf ≤ opts.maxfun ∧
    (prima_newuoa cb propose n x0 opts fuel env).nf ≤ opts.maxfun ∧
    (prima_bobyqa cb propose n x0 xl xu opts fuel env).nf ≤ opts.maxfun ∧
    (prima_lincoa cb propose n x0 xl xu opts fuel env).nf ≤ opts.maxfun ∧
    (prima_cobyla cb propose n x0 xl xu opts fuel env).nf ≤ opts.maxfun :=
  ⟨primaRun_nf_le Variant.uobyqa cb propose n x0 [] [] opts fuel env,
   primaRun_nf_le Variant.newuoa cb propose n x0 [] [] opts fuel env,
   primaRun_nf_le Variant.bobyqa cb propose n x0 xl xu opts fuel env,
   primaRun_nf_le Variant.lincoa cb propose n x0 xl xu opts fuel env,
   primaRun_nf_le Variant.cobyla cb propose n x0 xl xu opts fuel env⟩

/-- C3 (spec-modelled): the reported `cstrv` is always nonnegative; it is
exactly zero for the unconstrained and bound-only variants (UOBYQA, NEWUOA,
BOBYQA), and more generally whenever a variant has no constraints to
violate (LINCOA with no linear constraints, COBYLA with neither linear nor
nonlinear constraints declared). -/
theorem prima_cstrv_props {Ctx : Type} (cb : List ℚ → Ctx → RVal × List ℚ)
    (propose : EngineState Ctx → List ℚ) (n : ℕ) (x0 xl xu : List ℚ)
    (opts : prima_options Ctx) (fuel env : ℕ) :
    (∀ v : Variant, 0 ≤ (primaRun v cb propose n x0 xl xu opts fuel env).cstrv) ∧
    (prima_uobyqa cb propose n x0 opts fuel env).cstrv = 0 ∧
    (prima_newuoa cb propose n x0 opts fuel env).cstrv = 0 ∧
    (prima_bobyqa cb propose n x0 xl xu opts fuel env).cstrv = 0 ∧
    (opts.m_ineq = 0 → (prima_lincoa cb propose n x0 xl xu opts fuel env).cstrv = 0) ∧
    (opts.m_ineq = 0 → opts.m_nlcon = 0 →
      (prima_cobyla cb propose n x0 xl xu opts fuel env).cstrv = 0) := by
  refine ⟨fun v => primaRun_cstrv_nonneg v cb propose n x0 xl xu opts fuel env,
    ?_, ?_, ?_, ?_, ?_⟩
  · exact primaRun_cstrv_zero Variant.uobyqa cb propose n x0 [] [] opts fuel env
      (fun h => absurd h (by decide)) (fun h => absurd h (by decide))
  · exact primaRun_cstrv_zero Variant.newuoa cb propose n x0 [] [] opts fuel env
      (fun h => absurd h (by decide)) (fun h => absurd h (by decide))
  · exact primaRun_cstrv_zero Variant.bobyqa cb propose n x0 xl xu opts fuel env
      (fun h => absurd h (by decide)) (fun h => absurd h (by decide))
  · intro hm
    exact primaRun_cstrv_zero Variant.lincoa cb propose n x0 xl xu opts fuel env
      (fun _ => hm) (fun h => absurd h (by decide))
  · intro hm hn2
    exact primaRun_cstrv_zero Variant.cobyla cb propose n x0 xl xu opts fuel env
      (fun _ => hm) (fun _ => hn2)

/-- Witness for C3 at a concrete LINCOA run with no linear constraints
declared. -/
theorem prima_cstrv_props_witness :
    (prima_lincoa cbW proposeW 1 [0] [0] [1] optsW 2 0).cstrv = 0 :=
  (prima_cstrv_props cbW proposeW 1 [0] [0] [1] optsW 2 0).2.2.2.2.1 rfl

/-- C4 (spec-modelled): a non-finite objective value from the user callback
never faults the engine: the merit comparison makes such a trial point
strictly non-preferred, an evaluation returning NaN leaves the incumbent
best record unchanged while the counter still advances, and the solve
terminates with an ordinary return code. -/
theorem prima_nonfinite_safe {Ctx : Type} (v : Variant)
    (cb : List ℚ → Ctx → RVal × List ℚ) (propose : EngineState Ctx → List ℚ)
    (n : ℕ) (x0 xl xu : List ℚ) (opts : prima_options Ctx) (fuel env : ℕ)
    (xbad : List ℚ) (hbad : (cb xbad opts.data).1 = RVal.nan) :
    (∀ (c : ℚ) (f2 : RVal) (c2 : ℚ), better RVal.nan c f2 c2 = false) ∧
    (∀ (p : List ℚ) (s : EngineState Ctx),
      (cb (if hasBounds v then clip xl xu p else p) opts.data).1 = RVal.nan →
      (evalStep v cb opts xl xu p s).bestX = s.bestX ∧
      (evalStep v cb opts xl xu p s).bestF = s.bestF ∧
      (evalStep v cb opts xl xu p s).bestC = s.bestC ∧
      (evalStep v cb opts xl xu p s).nf = s.nf + 1) ∧
    ((primaRun v cb propose n x0 xl xu opts fuel env).rc = RC.SMALL_TR_RADIUS ∨
     (primaRun v cb propose n x0 xl xu opts fuel env).rc = RC.MAXFUN_REACHED ∨
     (primaRun v cb propose n x0 xl xu opts fuel env).rc = RC.INVALID_INPUT) := by
  refine ⟨fun c f2 c2 => rfl, ?_, ?_⟩
  · intro p s hp
    have h1 : (evalStep v cb opts xl xu p s).bestX = s.bestX := by
      simp only [evalStep]
      rw [hp, better_nan_false]
      simp
    have h2 : (evalStep v cb opts xl xu p s).bestF = s.bestF := by
      simp only [evalStep]
      rw [hp, better_nan_false]
      simp
    have h3 : (evalStep v cb opts xl xu p s).bestC = s.bestC := by
      simp only [evalStep]
      rw [hp, better_nan_false]
      simp
    exact ⟨h1, h2, h3, rfl⟩
  · unfold primaRun
    split
    · unfold primaFinish
      split
      · exact Or.inr (Or.inl rfl)
      · exact (runIter_rc _ _).imp id Or.inl
    · exact Or.inr (Or.inr rfl)

/-- Witness for C4 at a concrete run whose callback always returns NaN. -/
theorem prima_nonfinite_safe_witness :
    (primaRun Variant.newuoa cbW proposeW 1 [0] [] [] optsW 2 0).rc = RC.SMALL_TR_RADIUS ∨
    (primaRun Variant.newuoa cbW proposeW 1 [0] [] [] optsW 2 0).rc = RC.MAXFUN_REACHED ∨
    (primaRun Variant.newuoa cbW proposeW 1 [0] [] [] optsW 2 0).rc = RC.INVALID_INPUT :=
  (prima_nonfinite_safe Variant.newuoa cbW proposeW 1 [0] [] [] optsW 2 0 [0] rfl).2.2

/-- C5 (spec-modelled): on every callback invocation during a solve, the
opaque user-context value passed to the callback is exactly the one
supplied in the configuration, for each of the five entry points. -/
theorem prima_data_passthrough {Ctx : Type} (cb : List ℚ → Ctx → RVal × List ℚ)
    (propose : EngineState Ctx → List ℚ) (n : ℕ) (x0 xl xu : List ℚ)
    (opts : prima_options Ctx) (fuel env : ℕ) :
    (∀ c ∈ (prima_uobyqa cb propose n x0 opts fuel env).calls, c = opts.data) ∧
    (∀ c ∈ (prima_newuoa cb propose n x0 opts fuel env).calls, c = opts.data) ∧
    (∀ c ∈ (prima_bobyqa cb propose n x0 xl xu opts fuel env).calls, c = opts.data) ∧
    (∀ c ∈ (prima_lincoa cb propose n x0 xl xu opts fuel env).calls, c = opts.data) ∧
    (∀ c ∈ (prima_cobyla cb propose n x0 xl xu opts fuel env).calls, c = opts.data) :=
  ⟨primaRun_calls Variant.uobyqa cb propose n x0 [] [] opts fuel env,
   primaRun_calls Variant.newuoa cb propose n x0 [] [] opts fuel env,
   primaRun_calls Variant.bobyqa cb propose n x0 xl xu opts fuel env,
   primaRun_calls Variant.lincoa cb propose n x0 xl xu opts fuel env,
   primaRun_calls Variant.cobyla cb propose n x0 xl xu opts fuel env⟩

/-- Witness for C5 at a concrete run whose call trace is `[7, 7]`, the
configured context value being `7`. -/
theorem prima_data_passthrough_witness : (7 : ℕ) = optsW.data :=
  (prima_data_passthrough cbW proposeW 1 [0] [] [] optsW 2 0).1 7 (by decide)

/-- C6 (spec-modelled): a zero dimension, or a mismatched bound-array
length for the variants that take bound arrays, is rejected with the
invalid-input code, no callback invocation, and a zero evaluation count. -/
theorem prima_invalid_input {Ctx : Type} (cb : List ℚ → Ctx → RVal × List ℚ)
    (propose : EngineState Ctx → List ℚ) (x0 xl xu : List ℚ)
    (opts : prima_options Ctx) (fuel env : ℕ) :
    rejected (prima_uobyqa cb propose 0 x0 opts fuel env) ∧
    rejected (prima_newuoa cb propose 0 x0 opts fuel env) ∧
    rejected (prima_bobyqa cb propose 0 x0 xl xu opts fuel env) ∧
    rejected (prima_lincoa cb propose 0 x0 xl xu opts fuel env) ∧
    rejected (prima_cobyla cb propose 0 x0 xl xu opts fuel env) ∧
    (∀ n : ℕ, xl.length ≠ n ∨ xu.length ≠ n →
      rejected (prima_bobyqa cb propose n x0 xl xu opts fuel env) ∧
      rejected (prima_lincoa cb propose n x0 xl xu opts fuel env) ∧
      rejected (prima_cobyla cb propose n x0 xl xu opts fuel env)) := by
  refine ⟨?_, ?_, ?_, ?_, ?_, ?_⟩
  · exact primaRun_rejected_of Variant.uobyqa cb propose 0 x0 [] [] opts fuel env
      (validInput_n_zero Variant.uobyqa x0 [] [] opts)
  · exact primaRun_rejected_of Variant.newuoa cb propose 0 x0 [] [] opts fuel env
      (validInput_n_zero Variant.newuoa x0 [] [] opts)
  · exact primaRun_rejected_of Variant.bobyqa cb propose 0 x0 xl xu opts fuel env
      (validInput_n_zero Variant.bobyqa x0 xl xu opts)
  · exact primaRun_rejected_of Variant.lincoa cb propose 0 x0 xl xu opts fuel env
      (validInput_n_zero Variant.lincoa x0 xl xu opts)
  · exact primaRun_rejected_of Variant.cobyla cb propose 0 x0 xl xu opts fuel env
      (validInput_n_zero Variant.cobyla x0 xl xu opts)
  · intro n h
    exact
      ⟨primaRun_rejected_of Variant.bobyqa cb propose n x0 xl xu opts fuel env
        (validInput_bounds_mismatch Variant.bobyqa n x0 xl xu opts rfl h),
       primaRun_rejected_of Variant.lincoa cb propose n x0 xl xu opts fuel env
        (validInput_bounds_mismatch Variant.lincoa n x0 xl xu opts rfl h),
       primaRun_rejected_of Variant.cobyla cb propose n x0 xl xu opts fuel env
        (validInput_bounds_mismatch Variant.cobyla n x0 xl xu opts rfl h)⟩

/-- Witness for C6 at a concrete mismatched bound array. -/
theorem prima_invalid_input_witness :
    rejected (prima_bobyqa cbW proposeW 2 [0] [0] [0, 1] optsW 1 0) :=
  ((prima_invalid_input cbW proposeW [0] [0] [0, 1] optsW 1 0).2.2.2.2.2 2
    (Or.inl (by decide))).1

/-- C7 (spec-modelled): the engine is deterministic — it never consults the
ambient process state (clock, C `rand` state), so two runs of the same
entry point on the same deterministic callback and identical configuration
produce identical results. -/
theorem prima_deterministic {Ctx : Type} (cb : List ℚ → Ctx → RVal × List ℚ)
    (propose : EngineState Ctx → List ℚ) (n : ℕ) (x0 xl xu : List ℚ)
    (opts : prima_options Ctx) (fuel : ℕ) (env1 env2 : ℕ) :
    prima_uobyqa cb propose n x0 opts fuel env1 =
      prima_uobyqa cb propose n x0 opts fuel env2 ∧
    prima_newuoa cb propose n x0 opts fuel env1 =
      prima_newuoa cb propose n x0 opts fuel env2 ∧
    prima_bobyqa cb propose n x0 xl xu opts fuel env1 =
      prima_bobyqa cb propose n x0 xl xu opts fuel env2 ∧
    prima_lincoa cb propose n x0 xl xu opts fuel env1 =
      prima_lincoa cb propose n x0 xl xu opts fuel env2 ∧
    prima_cobyla cb propose n x0 xl xu opts fuel env1 =
      prima_cobyla cb propose n x0 xl xu opts fuel env2 :=
  ⟨rfl, rfl, rfl, rfl, rfl⟩

end Prima

/-! ### Theorems: the LINCOA example problem (C2) -/

namespace Prima

/-- C2 (spec-modelled): for the lincoa_example.c problem — minimize
`5(x1-3)^2+7(x2-2)^2+0.1(x1+x2)-10` subject to `x1≤4`, `x2≤3`, `x1+x2≤10`
and bounds `[-6,6]^2` — the idealized LINCOA return point lies in the
constraint polytope, minimizes the objective over it, and is within `2e-2`
of `(3, 2)` in each coordinate. -/
theorem lincoa_example_result_ok :
    LincoaExample.feasible LincoaExample.lincoaReturnedPoint ∧
    (∀ y : ℚ × ℚ, LincoaExample.feasible y →
      LincoaExample.obj LincoaExample.lincoaReturnedPoint ≤ LincoaExample.obj y) ∧
    |LincoaExample.lincoaReturnedPoint.1 - 3| ≤ 2/100 ∧
    |LincoaExample.lincoaReturnedPoint.2 - 2| ≤ 2/100 := by
  refine ⟨by norm_num [LincoaExample.feasible, LincoaExample.lincoaReturnedPoint], ?_,
    by norm_num [LincoaExample.lincoaReturnedPoint, abs_le],
    by norm_num [LincoaExample.lincoaReturnedPoint, abs_le]⟩
  intro y hy
  obtain ⟨h1, h2, h3, h4, h5, h6, h7⟩ := hy
  simp only [LincoaExample.obj, LincoaExample.lincoaReturnedPoint]
  nlinarith [sq_nonneg (y.1 - 299/100), sq_nonneg (y.2 - 279/140)]

/-- Witness for C2: minimality applied at the feasible start point
`(0, 0)`. -/
theorem lincoa_example_result_ok_witness :
    LincoaExample.obj LincoaExample.lincoaReturnedPoint ≤ LincoaExample.obj (0, 0) :=
  lincoa_example_result_ok.2.1 (0, 0) (by norm_num [LincoaExample.feasible])

end Prima
